import Mathlib

/-!
Verification of the manual workload-identity-federation client.

The development shallowly embeds the repository's Go programs:

* `cmd/create-jwt` (and `step2_create_jwt.go`): building and signing the
  external identity assertion (a compact three-segment JWT);
* `cmd/generate-jwk`: exporting an RSA public key as a single-entry JWK set;
* `cmd/exchange-token`: the two-stage token exchange (STS federated-token
  call, then service-account impersonation);
* `cmd/list-topics`: the resource call against the Pub/Sub API;
* `setup.sh`: the bounded retry loop around the exchange step.

Go strings are modelled as lists of unicode scalar values (`GoStr`), which
matches valid-UTF-8 Go strings.  Byte sequences are `List Nat` with every
element below 256.  HTTP traffic is modelled by a pure environment function
from requests to responses; every embedded network function also returns the
list of requests it issued, so ordering claims are provable.
-/

/-- Model of a Go string: its sequence of unicode scalar values. -/
abbrev GoStr := List Char

namespace Wif

/-! ## Decimal rendering of naturals (Go `%d` on a non-negative int) -/

/-- The decimal digit character for `d % 10`. -/
def digitChar (d : Nat) : Char := Char.ofNat (48 + d % 10)

/-- Fuel-indexed decimal rendering, most significant digit first.  The fuel
only bounds recursion depth; `natStr` supplies enough for any input. -/
def natStrGo : Nat → Nat → List Char
  | 0, _ => []
  | fuel + 1, n =>
    if n < 10 then [digitChar n] else natStrGo fuel (n / 10) ++ [digitChar (n % 10)]

/-- Decimal rendering of a natural number, as Go's `%d` / `strconv` writes it. -/
def natStr (n : Nat) : GoStr := natStrGo (n + 1) n

theorem natStrGo_fuel (n : Nat) : ∀ f g, n < f → n < g → natStrGo f n = natStrGo g n := by
  induction n using Nat.strong_induction_on with
  | _ n ih =>
    intro f g hf hg
    match f, g with
    | f + 1, g + 1 =>
      by_cases h10 : n < 10
      · simp [natStrGo, h10]
      · have hd : n / 10 < n := Nat.div_lt_self (by omega) (by omega)
        simp only [natStrGo, if_neg h10]
        rw [ih (n / 10) hd f g (by omega) (by omega)]

theorem natStr_eq (n : Nat) : ∀ f, n < f → natStrGo f n = natStr n := by
  intro f hf
  exact natStrGo_fuel n f (n + 1) hf (Nat.lt_succ_self n)

theorem natStr_unfold (n : Nat) :
    natStr n = if n < 10 then [digitChar n] else natStr (n / 10) ++ [digitChar (n % 10)] := by
  show natStrGo (n + 1) n = _
  by_cases h10 : n < 10
  · simp [natStrGo, h10]
  · have hd : n / 10 < n := Nat.div_lt_self (by omega) (by omega)
    simp only [natStrGo, if_neg h10, if_neg h10]
    rw [natStr_eq (n / 10) n hd]

/-- Whether a character is a decimal digit. -/
def isDig (c : Char) : Bool := 48 ≤ c.toNat && c.toNat ≤ 57

theorem toNat_mkChar (n : Nat) (h : n < 55296) : (Char.ofNat n).toNat = n := by
  have hv : n.isValidChar := Or.inl (by omega)
  rw [Char.ofNat, dif_pos hv]
  simp [Char.ofNatAux, Char.toNat, UInt32.ofNat', UInt32.toNat, BitVec.toNat_ofNatLt]

theorem digitChar_isDig (d : Nat) : isDig (digitChar d) = true := by
  simp only [isDig, digitChar, Bool.and_eq_true, decide_eq_true_eq]
  rw [toNat_mkChar (48 + d % 10) (by omega)]
  omega

theorem natStr_digits (n : Nat) : ∀ c ∈ natStr n, isDig c = true := by
  induction n using Nat.strong_induction_on with
  | _ n ih =>
    rw [natStr_unfold]
    by_cases h10 : n < 10
    · simp only [if_pos h10, List.mem_singleton]
      rintro c rfl
      exact digitChar_isDig n
    · simp only [if_neg h10, List.mem_append, List.mem_singleton]
      rintro c (hc | rfl)
      · exact ih (n / 10) (Nat.div_lt_self (by omega) (by omega)) c hc
      · exact digitChar_isDig _

theorem natStr_ne_nil (n : Nat) : natStr n ≠ [] := by
  rw [natStr_unfold]
  by_cases h10 : n < 10 <;> simp [h10]

/-- Numeric value of a digit run (the parser's accumulator fold). -/
def digitsVal (ds : List Char) : Nat := ds.foldl (fun a c => a * 10 + (c.toNat - 48)) 0

theorem digitsVal_aux_append (xs ys : List Char) (a : Nat) :
    (xs ++ ys).foldl (fun a c => a * 10 + (c.toNat - 48)) a
      = ys.foldl (fun a c => a * 10 + (c.toNat - 48))
          (xs.foldl (fun a c => a * 10 + (c.toNat - 48)) a) := by
  rw [List.foldl_append]

theorem digitChar_val (d : Nat) : (digitChar d).toNat - 48 = d % 10 := by
  have hm : d % 10 < 10 := Nat.mod_lt _ (by omega)
  simp only [digitChar]
  rw [toNat_mkChar (48 + d % 10) (by omega)]
  omega

theorem digitsVal_aux_natStr (n : Nat) : ∀ a : Nat,
    (natStr n).foldl (fun a c => a * 10 + (c.toNat - 48)) a = a * 10 ^ (natStr n).length + n := by
  induction n using Nat.strong_induction_on with
  | _ n ih =>
    intro a
    by_cases h10 : n < 10
    · rw [natStr_unfold, if_pos h10]
      simp only [List.foldl_cons, List.foldl_nil, digitChar_val, List.length_singleton, pow_one]
      omega
    · have hd : n / 10 < n := Nat.div_lt_self (by omega) (by omega)
      rw [natStr_unfold, if_neg h10, digitsVal_aux_append]
      simp only [List.foldl_cons, List.foldl_nil, digitChar_val]
      rw [ih (n / 10) hd a]
      simp only [List.length_append, List.length_singleton]
      rw [pow_succ, ← mul_assoc]
      generalize a * 10 ^ (natStr (n / 10)).length = m
      omega

theorem digitsVal_natStr (n : Nat) : digitsVal (natStr n) = n := by
  have := digitsVal_aux_natStr n 0
  simpa [digitsVal] using this

/-- Split a leading run of decimal digits from the input. -/
def spanDigits : List Char → List Char × List Char
  | [] => ([], [])
  | c :: cs =>
    if isDig c then
      let p := spanDigits cs
      (c :: p.1, p.2)
    else ([], c :: cs)

theorem spanDigits_stop (cs : List Char) (h : ∀ c t, cs = c :: t → isDig c = false) :
    spanDigits cs = ([], cs) := by
  match cs with
  | [] => rfl
  | c :: t => simp [spanDigits, h c t rfl]

theorem spanDigits_run (ds : List Char) (hds : ∀ c ∈ ds, isDig c = true)
    (rest : List Char) (hrest : spanDigits rest = ([], rest)) :
    spanDigits (ds ++ rest) = (ds, rest) := by
  induction ds with
  | nil => simpa using hrest
  | cons c t ih =>
    have hc : isDig c = true := hds c (by simp)
    have ht := ih (fun x hx => hds x (by simp [hx]))
    simp [spanDigits, hc, ht]

/-! ## Unpadded base64url (Go `base64.RawURLEncoding`) -/

/-- The base64url alphabet character for a 6-bit group. -/
def b64Char (v : Nat) : Char :=
  if v < 26 then Char.ofNat (65 + v)
  else if v < 52 then Char.ofNat (97 + (v - 26))
  else if v < 62 then Char.ofNat (48 + (v - 52))
  else if v = 62 then Char.ofNat 45
  else Char.ofNat 95

/-- The 6-bit group of a base64url alphabet character. -/
def b64Val (c : Char) : Option Nat :=
  if 65 ≤ c.toNat ∧ c.toNat ≤ 90 then some (c.toNat - 65)
  else if 97 ≤ c.toNat ∧ c.toNat ≤ 122 then some (c.toNat - 97 + 26)
  else if 48 ≤ c.toNat ∧ c.toNat ≤ 57 then some (c.toNat - 48 + 52)
  else if c.toNat = 45 then some 62
  else if c.toNat = 95 then some 63
  else none

theorem b64Val_b64Char (v : Nat) (h : v < 64) : b64Val (b64Char v) = some v := by
  revert h
  revert v
  decide

theorem b64Char_ne_dot (v : Nat) : b64Char v ≠ Char.ofNat 46 := by
  by_cases h : v < 64
  · exact (show ∀ w, w < 64 → b64Char w ≠ Char.ofNat 46 by decide) v h
  · unfold b64Char
    rw [if_neg (by omega), if_neg (by omega), if_neg (by omega), if_neg (by omega)]
    decide

/-- Unpadded base64url encoding of a byte sequence, three bytes at a time
(Go `base64.RawURLEncoding.EncodeToString`). -/
def b64Encode : List Nat → List Char
  | [] => []
  | [a] => [b64Char (a / 4), b64Char (a % 4 * 16)]
  | [a, b] => [b64Char (a / 4), b64Char (a % 4 * 16 + b / 16), b64Char (b % 16 * 4)]
  | a :: b :: c :: rest =>
      b64Char (a / 4) :: b64Char (a % 4 * 16 + b / 16) :: b64Char (b % 16 * 4 + c / 64)
        :: b64Char (c % 64) :: b64Encode rest

/-- Unpadded base64url decoding, the inverse direction of `b64Encode`. -/
def b64Decode : List Char → Option (List Nat)
  | [] => some []
  | [_] => none
  | [c1, c2] => do
      let v1 ← b64Val c1
      let v2 ← b64Val c2
      pure [v1 * 4 + v2 / 16]
  | [c1, c2, c3] => do
      let v1 ← b64Val c1
      let v2 ← b64Val c2
      let v3 ← b64Val c3
      pure [v1 * 4 + v2 / 16, v2 % 16 * 16 + v3 / 4]
  | c1 :: c2 :: c3 :: c4 :: rest => do
      let v1 ← b64Val c1
      let v2 ← b64Val c2
      let v3 ← b64Val c3
      let v4 ← b64Val c4
      let tail ← b64Decode rest
      pure ((v1 * 4 + v2 / 16) :: ((v2 % 16 * 16 + v3 / 4) :: ((v3 % 4 * 64 + v4) :: tail)))

theorem b64_roundtrip (bs : List Nat) (h : ∀ b ∈ bs, b < 256) :
    b64Decode (b64Encode bs) = some bs := by
  induction bs using b64Encode.induct with
  | case1 => rfl
  | case2 a =>
    have ha : a < 256 := h a (by simp)
    simp only [b64Encode, b64Decode]
    rw [b64Val_b64Char _ (by omega), b64Val_b64Char _ (by omega)]
    simp only [Option.bind_eq_bind, Option.some_bind, Option.pure_def]
    congr 2
    omega
  | case3 a b =>
    have ha : a < 256 := h a (by simp)
    have hb : b < 256 := h b (by simp)
    simp only [b64Encode, b64Decode]
    rw [b64Val_b64Char _ (by omega), b64Val_b64Char _ (by omega), b64Val_b64Char _ (by omega)]
    simp only [Option.bind_eq_bind, Option.some_bind, Option.pure_def]
    congr 1
    congr 1
    · omega
    · congr 1
      omega
  | case4 a b c rest ih =>
    have ha : a < 256 := h a (by simp)
    have hb : b < 256 := h b (by simp)
    have hc : c < 256 := h c (by simp)
    have ih2 := ih (fun x hx => h x (by simp [hx]))
    simp only [b64Encode, b64Decode]
    rw [b64Val_b64Char _ (by omega), b64Val_b64Char _ (by omega), b64Val_b64Char _ (by omega),
      b64Val_b64Char _ (by omega), ih2]
    simp only [Option.bind_eq_bind, Option.some_bind, Option.pure_def]
    congr 1
    congr 1
    · omega
    · congr 1
      · omega
      · congr 1
        omega

theorem b64Encode_no_dot (bs : List Nat) : ∀ c ∈ b64Encode bs, c ≠ Char.ofNat 46 := by
  induction bs using b64Encode.induct with
  | case1 => simp [b64Encode]
  | case2 a =>
    simp only [b64Encode, List.mem_cons, List.mem_singleton, List.not_mem_nil]
    rintro c (rfl | rfl | hf) <;> first | exact b64Char_ne_dot _ | cases hf
  | case3 a b =>
    simp only [b64Encode, List.mem_cons, List.not_mem_nil]
    rintro c (rfl | rfl | rfl | hf) <;> first | exact b64Char_ne_dot _ | cases hf
  | case4 a b c rest ih =>
    simp only [b64Encode, List.mem_cons]
    rintro x (rfl | rfl | rfl | rfl | hx) <;> first | exact b64Char_ne_dot _ | exact ih x hx

/-! ## UTF-8 (bytes of a Go string) -/

/-- The UTF-8 bytes of one unicode scalar value. -/
def utf8Char (c : Char) : List Nat :=
  let n := c.toNat
  if n < 128 then [n]
  else if n < 2048 then [192 + n / 64, 128 + n % 64]
  else if n < 65536 then [224 + n / 4096, 128 + n / 64 % 64, 128 + n % 64]
  else [240 + n / 262144, 128 + n / 4096 % 64, 128 + n / 64 % 64, 128 + n % 64]

/-- The UTF-8 bytes of a Go string. -/
def utf8Str (s : GoStr) : List Nat := (s.map utf8Char).flatten

/-- Decode one scalar value from the front of a UTF-8 byte sequence.  Branches
on the leading byte's range; continuation bytes are taken as-is (the round
trip only ever decodes canonical encodings). -/
def utf8DecOne : List Nat → Option (Char × List Nat)
  | [] => none
  | b :: rest =>
    if b < 128 then some (Char.ofNat b, rest)
    else if b < 224 then
      match rest with
      | b2 :: rest2 =>
          if 192 ≤ b then some (Char.ofNat ((b - 192) * 64 + (b2 - 128)), rest2) else none
      | [] => none
    else if b < 240 then
      match rest with
      | b2 :: b3 :: rest3 =>
          some (Char.ofNat ((b - 224) * 4096 + (b2 - 128) * 64 + (b3 - 128)), rest3)
      | _ => none
    else
      match rest with
      | b2 :: b3 :: b4 :: rest4 =>
          some
            (Char.ofNat ((b - 240) * 262144 + (b2 - 128) * 4096 + (b3 - 128) * 64 + (b4 - 128)),
              rest4)
      | _ => none

/-- Fuel-driven UTF-8 decoding loop; each step consumes at least one byte, so
the input length is always enough fuel. -/
def utf8DecGo : Nat → List Nat → Option (List Char)
  | _, [] => some []
  | 0, _ :: _ => none
  | fuel + 1, b :: rest =>
      (utf8DecOne (b :: rest)).bind
        (fun p => (utf8DecGo fuel p.2).map (fun q => p.1 :: q))

/-- UTF-8 decoding of a whole byte sequence. -/
def utf8Dec (bs : List Nat) : Option (List Char) := utf8DecGo bs.length bs

theorem char_valid_nat (c : Char) : c.toNat < 55296 ∨ (57343 < c.toNat ∧ c.toNat < 1114112) := by
  rcases c.valid with h | ⟨h1, h2⟩
  · left
    exact h
  · right
    exact ⟨h1, h2⟩

theorem utf8Char_bytes (c : Char) : ∀ b ∈ utf8Char c, b < 256 := by
  have hv := char_valid_nat c
  simp only [utf8Char]
  split_ifs <;> simp only [List.mem_cons, List.mem_singleton, List.not_mem_nil] <;>
    rintro b (rfl | rfl | rfl | rfl | hf) <;> first | omega | cases hf

theorem utf8Str_bytes (s : GoStr) : ∀ b ∈ utf8Str s, b < 256 := by
  induction s with
  | nil => simp [utf8Str]
  | cons c t ih =>
    intro b hb
    simp only [utf8Str, List.map_cons, List.flatten_cons, List.mem_append] at hb
    rcases hb with hb | hb
    · exact utf8Char_bytes c b hb
    · exact ih b (by simpa [utf8Str] using hb)

theorem utf8DecOne_encode (c : Char) (rest : List Nat) :
    utf8DecOne (utf8Char c ++ rest) = some (c, rest) := by
  have hv := char_valid_nat c
  simp only [utf8Char]
  split_ifs with h1 h2 h3
  · simp only [List.cons_append, List.nil_append, utf8DecOne, if_pos h1]
    rw [Char.ofNat_toNat]
  · simp only [List.cons_append, List.nil_append, utf8DecOne]
    rw [if_neg (by omega), if_pos (by omega), if_pos (by omega)]
    have harith : (192 + c.toNat / 64 - 192) * 64 + (128 + c.toNat % 64 - 128) = c.toNat := by
      omega
    rw [harith, Char.ofNat_toNat]
  · simp only [List.cons_append, List.nil_append, utf8DecOne]
    rw [if_neg (by omega), if_neg (by omega), if_pos (by omega)]
    have harith :
        (224 + c.toNat / 4096 - 224) * 4096 + (128 + c.toNat / 64 % 64 - 128) * 64
          + (128 + c.toNat % 64 - 128) = c.toNat := by
      omega
    rw [harith, Char.ofNat_toNat]
  · simp only [List.cons_append, List.nil_append, utf8DecOne]
    rw [if_neg (by omega), if_neg (by omega), if_neg (by omega)]
    have harith :
        (240 + c.toNat / 262144 - 240) * 262144 + (128 + c.toNat / 4096 % 64 - 128) * 4096
          + (128 + c.toNat / 64 % 64 - 128) * 64 + (128 + c.toNat % 64 - 128) = c.toNat := by
      omega
    rw [harith, Char.ofNat_toNat]

theorem utf8Char_ne_nil (c : Char) : utf8Char c ≠ [] := by
  simp only [utf8Char]
  split_ifs <;> simp

theorem utf8DecGo_encode (s : GoStr) :
    ∀ fuel, (utf8Str s).length ≤ fuel → utf8DecGo fuel (utf8Str s) = some s := by
  induction s with
  | nil =>
    intro fuel _
    show utf8DecGo fuel [] = some []
    cases fuel <;> rfl
  | cons c t ih =>
    intro fuel hfuel
    have hstep : utf8Str (c :: t) = utf8Char c ++ utf8Str t := by
      simp [utf8Str]
    rw [hstep] at hfuel ⊢
    obtain ⟨b, bs, hcons⟩ := List.exists_cons_of_ne_nil
      (show utf8Char c ++ utf8Str t ≠ [] by
        simp [utf8Char_ne_nil c])
    have hlen : 1 ≤ (utf8Char c ++ utf8Str t).length := by
      rw [hcons]; simp
    cases fuel with
    | zero => omega
    | succ fuel =>
      rw [hcons, utf8DecGo, ← hcons, utf8DecOne_encode c (utf8Str t)]
      have htlen : (utf8Str t).length ≤ fuel := by
        have := List.length_append (utf8Char c) (utf8Str t)
        have h1 : 1 ≤ (utf8Char c).length := by
          cases hu : utf8Char c with
          | nil => exact absurd hu (utf8Char_ne_nil c)
          | cons x xs => simp
        omega
      rw [Option.some_bind, ih fuel htlen]
      rfl

theorem utf8_roundtrip (s : GoStr) : utf8Dec (utf8Str s) = some s :=
  utf8DecGo_encode s (utf8Str s).length (Nat.le_refl _)

/-! ## JSON values

The wire bodies of the embedded programs are JSON.  `Json` is the parsed
form; the parser below accepts the standard grammar (with integer numbers,
which covers every body these programs read or write). -/

/-- A parsed JSON value. -/
inductive Json where
  | null
  | bool (b : Bool)
  | num (n : Int)
  | str (s : GoStr)
  | arr (elems : List Json)
  | obj (fields : List (GoStr × Json))

/-- The double-quote character. -/
def quoteC : Char := Char.ofNat 34

/-- The backslash character. -/
def backC : Char := Char.ofNat 92

/-- Lower-case hex digit character for a value below 16. -/
def hexChar (n : Nat) : Char := if n < 10 then Char.ofNat (48 + n) else Char.ofNat (87 + n)

/-- A six-character `\u0000`-style escape. -/
def uEsc (n : Nat) : List Char :=
  [backC, 'u', hexChar (n / 4096 % 16), hexChar (n / 256 % 16), hexChar (n / 16 % 16),
    hexChar (n % 16)]

/-- One character of a JSON string as Go `encoding/json.Marshal` writes it
(HTML-escaping on, its default: `<`, `>`, `&` and U+2028/U+2029 become
`\u` escapes alongside quotes, backslashes and control characters). -/
def escChar (c : Char) : List Char :=
  if c = quoteC then [backC, quoteC]
  else if c = backC then [backC, backC]
  else if c = Char.ofNat 10 then [backC, 'n']
  else if c = Char.ofNat 13 then [backC, 'r']
  else if c = Char.ofNat 9 then [backC, 't']
  else if c.toNat < 32 ∨ c.toNat = 60 ∨ c.toNat = 62 ∨ c.toNat = 38 then uEsc c.toNat
  else if c.toNat = 8232 ∨ c.toNat = 8233 then uEsc c.toNat
  else [c]

/-- The escaped body of a JSON string literal. -/
def escStr (s : GoStr) : List Char := (s.map escChar).flatten

/-- A complete JSON string literal, quotes included. -/
def quoteStr (s : GoStr) : List Char := quoteC :: (escStr s ++ [quoteC])

/-- Hex digit value (both cases), for `\u` escapes. -/
def hexVal (c : Char) : Option Nat :=
  if 48 ≤ c.toNat ∧ c.toNat ≤ 57 then some (c.toNat - 48)
  else if 97 ≤ c.toNat ∧ c.toNat ≤ 102 then some (c.toNat - 87)
  else if 65 ≤ c.toNat ∧ c.toNat ≤ 70 then some (c.toNat - 55)
  else none

/-- One logical character of a JSON string body: either a plain character or
one escape sequence.  Never called on a closing quote (the loop checks it). -/
def strTok : List Char → Option (Char × List Char)
  | [] => none
  | c :: rest =>
    if c = backC then
      match rest with
      | [] => none
      | e :: rest2 =>
        if e = quoteC then some (quoteC, rest2)
        else if e = backC then some (backC, rest2)
        else if e = Char.ofNat 47 then some (Char.ofNat 47, rest2)
        else if e = 'b' then some (Char.ofNat 8, rest2)
        else if e = 'f' then some (Char.ofNat 12, rest2)
        else if e = 'n' then some (Char.ofNat 10, rest2)
        else if e = 'r' then some (Char.ofNat 13, rest2)
        else if e = 't' then some (Char.ofNat 9, rest2)
        else if e = 'u' then
          match rest2 with
          | h1 :: h2 :: h3 :: h4 :: rest3 =>
            match hexVal h1, hexVal h2, hexVal h3, hexVal h4 with
            | some v1, some v2, some v3, some v4 =>
                some (Char.ofNat (((v1 * 16 + v2) * 16 + v3) * 16 + v4), rest3)
            | _, _, _, _ => none
          | _ => none
        else none
    else some (c, rest)

/-- Fuel-driven loop for a JSON string body, after the opening quote; stops
at the closing quote, returning the decoded body and the remaining input. -/
def strBodyGo : Nat → List Char → Option (List Char × List Char)
  | 0, _ => none
  | fuel + 1, cs =>
    match cs with
    | [] => none
    | c :: rest =>
      if c = quoteC then some ([], rest)
      else
        (strTok (c :: rest)).bind
          (fun p => (strBodyGo fuel p.2).map (fun q => (p.1 :: q.1, q.2)))

/-- A JSON string body with self-sizing fuel. -/
def strBody (cs : List Char) : Option (List Char × List Char) := strBodyGo (cs.length + 1) cs

/-- JSON insignificant whitespace. -/
def isWsC (c : Char) : Bool :=
  c.toNat == 32 || c.toNat == 9 || c.toNat == 10 || c.toNat == 13

/-- Drop leading JSON whitespace. -/
def skipWs : List Char → List Char
  | [] => []
  | c :: r => if isWsC c then skipWs r else c :: r

/-- Object-field loop of the JSON parser, abstracted over the value parser
`pv`; recursion is on fuel only.  Expects its input to start at a key's
opening quote, and consumes up to and including the closing brace. -/
def parseFieldsGo (pv : List Char → Option (Json × List Char)) :
    Nat → List Char → Option (List (GoStr × Json) × List Char)
  | 0, _ => none
  | fuel + 1, cs =>
    match cs with
    | [] => none
    | c :: rest =>
      if c = quoteC then
        (strBody rest).bind
          (fun pk =>
            match skipWs pk.2 with
            | [] => none
            | d :: rest2 =>
              if d = Char.ofNat 58 then
                (pv (skipWs rest2)).bind
                  (fun pz =>
                    match skipWs pz.2 with
                    | [] => none
                    | e :: rest3 =>
                      if e = Char.ofNat 44 then
                        (parseFieldsGo pv fuel (skipWs rest3)).map
                          (fun pr => ((pk.1, pz.1) :: pr.1, pr.2))
                      else if e = Char.ofNat 125 then some ([(pk.1, pz.1)], rest3)
                      else none)
              else none)
      else none

/-- Array-element loop of the JSON parser, abstracted over the value parser;
consumes up to and including the closing bracket. -/
def parseElemsGo (pv : List Char → Option (Json × List Char)) :
    Nat → List Char → Option (List Json × List Char)
  | 0, _ => none
  | fuel + 1, cs =>
      (pv cs).bind
        (fun pz =>
          match skipWs pz.2 with
          | [] => none
          | e :: rest3 =>
            if e = Char.ofNat 44 then
              (parseElemsGo pv fuel (skipWs rest3)).map (fun pr => (pz.1 :: pr.1, pr.2))
            else if e = Char.ofNat 93 then some ([pz.1], rest3)
            else none)

/-- The JSON value parser.  Fuel bounds nesting depth and loop lengths; the
driver `parseJson` supplies the input length, which always suffices. -/
def parseValGo : Nat → List Char → Option (Json × List Char)
  | 0, _ => none
  | fuel + 1, cs =>
    match skipWs cs with
    | [] => none
    | c :: rest =>
      if c = quoteC then (strBody rest).map (fun p => (Json.str p.1, p.2))
      else if c = Char.ofNat 123 then
        match skipWs rest with
        | [] => none
        | d :: rest2 =>
          if d = Char.ofNat 125 then some (Json.obj [], rest2)
          else
            (parseFieldsGo (parseValGo fuel) fuel (d :: rest2)).map
              (fun p => (Json.obj p.1, p.2))
      else if c = Char.ofNat 91 then
        match skipWs rest with
        | [] => none
        | d :: rest2 =>
          if d = Char.ofNat 93 then some (Json.arr [], rest2)
          else
            (parseElemsGo (parseValGo fuel) fuel (d :: rest2)).map
              (fun p => (Json.arr p.1, p.2))
      else if c = 't' then
        match rest with
        | 'r' :: 'u' :: 'e' :: r => some (Json.bool true, r)
        | _ => none
      else if c = 'f' then
        match rest with
        | 'a' :: 'l' :: 's' :: 'e' :: r => some (Json.bool false, r)
        | _ => none
      else if c = 'n' then
        match rest with
        | 'u' :: 'l' :: 'l' :: r => some (Json.null, r)
        | _ => none
      else if c = Char.ofNat 45 then
        match spanDigits rest with
        | ([], _) => none
        | (ds, r) => some (Json.num (-(digitsVal ds : Int)), r)
      else if isDig c then
        match spanDigits (c :: rest) with
        | (ds, r) => some (Json.num ((digitsVal ds : Int)), r)
      else none

/-- Parse a complete JSON document (whole input, trailing whitespace only). -/
def parseJson (s : List Char) : Option Json :=
  match parseValGo (s.length + 1) s with
  | some (j, r) => if skipWs r = [] then some j else none
  | none => none

/-! ## JSON emission (the exact bytes Go `json.Marshal` writes for the
flat objects the programs produce: sorted keys, no whitespace) -/

/-- A scalar JSON value as emitted by the programs (string or natural). -/
inductive JVal where
  | s (v : GoStr)
  | n (v : Nat)

/-- Emitted form of a scalar value. -/
def emitVal : JVal → List Char
  | .s v => quoteStr v
  | .n v => natStr v

/-- Emitted form of an object's field list: `"key":value` joined by commas. -/
def emitFields : List (GoStr × JVal) → List Char
  | [] => []
  | [(k, v)] => quoteStr k ++ Char.ofNat 58 :: emitVal v
  | (k, v) :: rest =>
      quoteStr k ++ Char.ofNat 58 :: (emitVal v ++ Char.ofNat 44 :: emitFields rest)

/-- Emitted form of a whole flat object. -/
def emitObj (fs : List (GoStr × JVal)) : List Char :=
  Char.ofNat 123 :: (emitFields fs ++ [Char.ofNat 125])

/-- The parsed counterpart of an emitted scalar. -/
def jval : JVal → Json
  | .s v => Json.str v
  | .n v => Json.num (v : Int)

/-! ## The JSON codec round trip, on the emitted fragment -/

theorem hexVal_hexChar (d : Nat) (h : d < 16) : hexVal (hexChar d) = some d := by
  revert h
  revert d
  decide

theorem strTok_escChar (c : Char) (rest : List Char) :
    strTok (escChar c ++ rest) = some (c, rest) := by
  have hv := char_valid_nat c
  unfold escChar
  split_ifs with h1 h2 h3 h4 h5 h6 h7
  · subst h1
    simp [strTok, quoteC, backC]
  · subst h2
    simp [strTok, quoteC, backC]
  · subst h3
    simp [strTok, quoteC, backC]
  · subst h4
    simp [strTok, quoteC, backC]
  · subst h5
    simp [strTok, quoteC, backC]
  · have hlt : c.toNat < 65536 := by omega
    have harith :
        ((c.toNat / 4096 % 16 * 16 + c.toNat / 256 % 16) * 16 + c.toNat / 16 % 16) * 16
          + c.toNat % 16 = c.toNat := by
      omega
    simp only [uEsc, List.cons_append, List.nil_append]
    simp [strTok, quoteC, backC, hexVal_hexChar (c.toNat / 4096 % 16) (by omega),
      hexVal_hexChar (c.toNat / 256 % 16) (by omega), hexVal_hexChar (c.toNat / 16 % 16) (by omega),
      hexVal_hexChar (c.toNat % 16) (by omega), harith]
  · have hlt : c.toNat < 65536 := by omega
    have harith :
        ((c.toNat / 4096 % 16 * 16 + c.toNat / 256 % 16) * 16 + c.toNat / 16 % 16) * 16
          + c.toNat % 16 = c.toNat := by
      omega
    simp only [uEsc, List.cons_append, List.nil_append]
    simp [strTok, quoteC, backC, hexVal_hexChar (c.toNat / 4096 % 16) (by omega),
      hexVal_hexChar (c.toNat / 256 % 16) (by omega), hexVal_hexChar (c.toNat / 16 % 16) (by omega),
      hexVal_hexChar (c.toNat % 16) (by omega), harith]
  · simp [strTok, h2]

theorem escChar_head (c : Char) : ∃ x xs, escChar c = x :: xs ∧ x ≠ quoteC := by
  unfold escChar
  split_ifs with h1 h2 h3 h4 h5 h6 h7
  · exact ⟨backC, _, rfl, by decide⟩
  · exact ⟨backC, _, rfl, by decide⟩
  · exact ⟨backC, _, rfl, by decide⟩
  · exact ⟨backC, _, rfl, by decide⟩
  · exact ⟨backC, _, rfl, by decide⟩
  · exact ⟨backC, _, rfl, by decide⟩
  · exact ⟨backC, _, rfl, by decide⟩
  · exact ⟨c, [], rfl, h1⟩

theorem strBodyGo_esc (s : GoStr) : ∀ fuel rest, s.length + 1 ≤ fuel →
    strBodyGo fuel (escStr s ++ quoteC :: rest) = some (s, rest) := by
  induction s with
  | nil =>
    intro fuel rest hfuel
    match fuel with
    | f + 1 =>
      show strBodyGo (f + 1) (([].map escChar).flatten ++ quoteC :: rest) = _
      simp only [List.map_nil, List.flatten_nil, List.nil_append, strBodyGo]
      simp
  | cons c t ih =>
    intro fuel rest hfuel
    have hlen : t.length + 2 ≤ fuel := by
      simpa [List.length_cons] using hfuel
    match fuel, hlen with
    | f + 1, _ =>
      obtain ⟨x, xs, hx, hxq⟩ := escChar_head c
      have hsplit : escStr (c :: t) ++ quoteC :: rest
          = x :: (xs ++ (escStr t ++ quoteC :: rest)) := by
        simp only [escStr, List.map_cons, List.flatten_cons, hx]
        simp [List.append_assoc]
      rw [hsplit, strBodyGo, if_neg hxq]
      have hback : x :: (xs ++ (escStr t ++ quoteC :: rest))
          = escChar c ++ (escStr t ++ quoteC :: rest) := by
        rw [hx]
        simp
      rw [hback, strTok_escChar c, Option.some_bind, ih f rest (by omega)]
      rfl

theorem skipWs_cons (c : Char) (r : List Char) (h : isWsC c = false) :
    skipWs (c :: r) = c :: r := by
  simp [skipWs, h]

theorem isDig_not_ws (c : Char) (h : isDig c = true) : isWsC c = false := by
  simp only [isDig, Bool.and_eq_true, decide_eq_true_eq] at h
  simp only [isWsC, Bool.or_eq_false_iff, beq_eq_false_iff_ne, ne_eq]
  omega

theorem isDig_head_branches (c : Char) (h : isDig c = true) :
    c ≠ quoteC ∧ c ≠ Char.ofNat 123 ∧ c ≠ Char.ofNat 91 ∧ c ≠ 't' ∧ c ≠ 'f' ∧ c ≠ 'n'
      ∧ c ≠ Char.ofNat 45 := by
  simp only [isDig, Bool.and_eq_true, decide_eq_true_eq] at h
  refine ⟨?_, ?_, ?_, ?_, ?_, ?_, ?_⟩ <;> (rintro rfl; revert h; decide)

theorem escChar_len (c : Char) : 1 ≤ (escChar c).length := by
  obtain ⟨x, xs, hx, _⟩ := escChar_head c
  rw [hx]
  simp

theorem escStr_len (s : GoStr) : s.length ≤ (escStr s).length := by
  induction s with
  | nil => simp [escStr]
  | cons c t ih =>
    have hstep : escStr (c :: t) = escChar c ++ escStr t := by
      simp [escStr]
    rw [hstep, List.length_append, List.length_cons]
    have := escChar_len c
    omega

theorem parseValGo_str (v : GoStr) (fuel : Nat) (rest : List Char) :
    parseValGo (fuel + 1) (quoteStr v ++ rest) = some (Json.str v, rest) := by
  have hq : quoteStr v ++ rest = quoteC :: (escStr v ++ quoteC :: rest) := by
    simp [quoteStr]
  rw [hq]
  simp only [parseValGo,
    skipWs_cons quoteC (escStr v ++ quoteC :: rest) (by decide), ite_true, if_pos rfl]
  show Option.map _ (strBodyGo ((escStr v ++ quoteC :: rest).length + 1) _) = _
  rw [strBodyGo_esc v ((escStr v ++ quoteC :: rest).length + 1) rest
    (by
      have := escStr_len v
      rw [List.length_append, List.length_cons]
      omega)]
  rfl

theorem parseValGo_nat (n : Nat) (fuel : Nat) (rest : List Char)
    (hrest : spanDigits rest = ([], rest)) :
    parseValGo (fuel + 1) (natStr n ++ rest) = some (Json.num (n : Int), rest) := by
  cases hn : natStr n with
  | nil => exact absurd hn (natStr_ne_nil n)
  | cons c0 t0 =>
    have hc0 : isDig c0 = true := natStr_digits n c0 (by rw [hn]; exact List.mem_cons_self _ _)
    obtain ⟨hq, h123, h91, ht, hf, hnn, h45⟩ := isDig_head_branches c0 hc0
    have hspan : spanDigits (c0 :: (t0 ++ rest)) = (c0 :: t0, rest) := by
      have hall : ∀ x ∈ c0 :: t0, isDig x = true := by
        rw [← hn]
        exact natStr_digits n
      have := spanDigits_run (c0 :: t0) hall rest hrest
      simpa using this
    have hval : digitsVal (c0 :: t0) = n := by
      rw [← hn]
      exact digitsVal_natStr n
    show parseValGo (fuel + 1) (c0 :: (t0 ++ rest)) = _
    simp only [parseValGo, skipWs_cons c0 (t0 ++ rest) (isDig_not_ws c0 hc0),
      hq, h123, h91, ht, hf, hnn, h45, hc0, ite_true, ite_false, if_true, if_false,
      hspan, hval]

theorem not_dig_stop (c : Char) (r : List Char) (h : isDig c = false) :
    spanDigits (c :: r) = ([], c :: r) := by
  simp [spanDigits, h]

theorem parseValGo_emitVal (v : JVal) (fuel : Nat) (rest : List Char)
    (hrest : spanDigits rest = ([], rest)) :
    parseValGo (fuel + 1) (emitVal v ++ rest) = some (jval v, rest) := by
  cases v with
  | s w => exact parseValGo_str w fuel rest
  | n w => exact parseValGo_nat w fuel rest hrest

theorem emitVal_head (v : JVal) : ∃ x xs, emitVal v = x :: xs ∧ isWsC x = false := by
  cases v with
  | s w => exact ⟨quoteC, _, rfl, by decide⟩
  | n w =>
    cases hn : natStr w with
    | nil => exact absurd hn (natStr_ne_nil w)
    | cons c0 t0 =>
      have hc0 : isDig c0 = true := natStr_digits w c0 (by rw [hn]; exact List.mem_cons_self _ _)
      exact ⟨c0, t0, hn, isDig_not_ws c0 hc0⟩

theorem strBody_esc (s : GoStr) (rest : List Char) :
    strBody (escStr s ++ quoteC :: rest) = some (s, rest) := by
  show strBodyGo ((escStr s ++ quoteC :: rest).length + 1) _ = _
  apply strBodyGo_esc
  have := escStr_len s
  rw [List.length_append, List.length_cons]
  omega

theorem skipWs_emitVal (v : JVal) (z : List Char) : skipWs (emitVal v ++ z) = emitVal v ++ z := by
  obtain ⟨x, xs, hx, hxw⟩ := emitVal_head v
  rw [hx, List.cons_append, skipWs_cons x (xs ++ z) hxw]

theorem parseFieldsGo_emit (fs : List (GoStr × JVal)) :
    ∀ fuelF vfuel rest, fs ≠ [] → fs.length ≤ fuelF →
      parseFieldsGo (parseValGo (vfuel + 1)) fuelF (emitFields fs ++ Char.ofNat 125 :: rest)
        = some (fs.map (fun p => (p.1, jval p.2)), rest) := by
  induction fs with
  | nil =>
    intro _ _ _ hne _
    exact absurd rfl hne
  | cons kv fs' ih =>
    obtain ⟨k, v⟩ := kv
    intro fuelF vfuel rest _ hlen
    have hlen' : fs'.length + 1 ≤ fuelF := by
      simpa using hlen
    cases fuelF with
    | zero => omega
    | succ f =>
      cases fs' with
      | nil =>
        have hsplit : emitFields [(k, v)] ++ Char.ofNat 125 :: rest
            = quoteC
                :: (escStr k
                  ++ quoteC :: (Char.ofNat 58 :: (emitVal v ++ Char.ofNat 125 :: rest))) := by
          simp [emitFields, quoteStr, List.append_assoc]
        have hv : parseValGo (vfuel + 1) (emitVal v ++ Char.ofNat 125 :: rest)
            = some (jval v, Char.ofNat 125 :: rest) :=
          parseValGo_emitVal v vfuel _ (not_dig_stop _ _ (by decide))
        rw [hsplit]
        simp only [parseFieldsGo, if_pos rfl,
          strBody_esc k (Char.ofNat 58 :: (emitVal v ++ Char.ofNat 125 :: rest)),
          Option.some_bind,
          skipWs_cons (Char.ofNat 58) (emitVal v ++ Char.ofNat 125 :: rest) (by decide),
          skipWs_emitVal, hv, skipWs_cons (Char.ofNat 125) rest (by decide),
          if_neg (by decide : ¬ ((Char.ofNat 125 : Char) = Char.ofNat 44)),
          List.map_cons, List.map_nil]
        simp
      | cons p2 fs2 =>
        have hsplit : emitFields ((k, v) :: p2 :: fs2) ++ Char.ofNat 125 :: rest
            = quoteC
                :: (escStr k
                  ++ quoteC
                    :: (Char.ofNat 58
                      :: (emitVal v
                        ++ Char.ofNat 44
                          :: (emitFields (p2 :: fs2) ++ Char.ofNat 125 :: rest)))) := by
          simp [emitFields, quoteStr, List.append_assoc]
        have hskip : skipWs (emitFields (p2 :: fs2) ++ Char.ofNat 125 :: rest)
            = emitFields (p2 :: fs2) ++ Char.ofNat 125 :: rest := by
          obtain ⟨tl, htl⟩ : ∃ t, emitFields (p2 :: fs2) ++ Char.ofNat 125 :: rest
              = quoteC :: t := by
            obtain ⟨k2, v2⟩ := p2
            cases fs2 <;> simp [emitFields, quoteStr]
          rw [htl, skipWs_cons quoteC tl (by decide)]
        have hv : parseValGo (vfuel + 1)
              (emitVal v ++ Char.ofNat 44 :: (emitFields (p2 :: fs2) ++ Char.ofNat 125 :: rest))
            = some (jval v,
                Char.ofNat 44 :: (emitFields (p2 :: fs2) ++ Char.ofNat 125 :: rest)) :=
          parseValGo_emitVal v vfuel _ (not_dig_stop _ _ (by decide))
        have hiht := ih f vfuel rest (by simp) (by
          simp only [List.length_cons] at hlen' ⊢
          omega)
        rw [hsplit]
        simp only [parseFieldsGo, if_pos rfl,
          strBody_esc k, Option.some_bind,
          skipWs_cons (Char.ofNat 58) _ (by decide),
          skipWs_emitVal, hv,
          skipWs_cons (Char.ofNat 44) _ (by decide),
          hskip, hiht, Option.map_some, List.map_cons]
        simp

theorem parseValGo_emitObj (fs : List (GoStr × JVal)) (fuel : Nat) (rest : List Char)
    (hfuel : fs.length + 1 ≤ fuel) :
    parseValGo fuel (emitObj fs ++ rest)
      = some (Json.obj (fs.map (fun p => (p.1, jval p.2))), rest) := by
  cases fuel with
  | zero => omega
  | succ f =>
    have hsplit : emitObj fs ++ rest
        = Char.ofNat 123 :: (emitFields fs ++ Char.ofNat 125 :: rest) := by
      simp [emitObj, List.append_assoc]
    rw [hsplit]
    cases fs with
    | nil =>
      simp only [parseValGo, skipWs_cons (Char.ofNat 123) _ (by decide),
        if_neg (by decide : ¬ ((Char.ofNat 123 : Char) = quoteC)), if_pos rfl, emitFields,
        List.nil_append, skipWs_cons (Char.ofNat 125) rest (by decide), List.map_nil]
      simp
    | cons p fs' =>
      have hhead : ∃ t, emitFields (p :: fs') ++ Char.ofNat 125 :: rest = quoteC :: t := by
        obtain ⟨k2, v2⟩ := p
        cases fs' <;> simp [emitFields, quoteStr]
      obtain ⟨tl, htl⟩ := hhead
      have hlen1 : 1 ≤ f := by
        simp only [List.length_cons] at hfuel
        omega
      cases f with
      | zero => omega
      | succ vf =>
        have hfields := parseFieldsGo_emit (p :: fs') (vf + 1) vf rest (by simp)
          (by
            simp only [List.length_cons] at hfuel ⊢
            omega)
        simp only [parseValGo] at hfields
        simp only [parseValGo, skipWs_cons (Char.ofNat 123) _ (by decide),
          if_neg (by decide : ¬ ((Char.ofNat 123 : Char) = quoteC)), if_pos rfl,
          htl, skipWs_cons quoteC tl (by decide),
          if_neg (by decide : ¬ (quoteC = Char.ofNat 125))]
        rw [← htl, hfields]
        rfl

theorem emitFields_len (fs : List (GoStr × JVal)) : fs.length ≤ (emitFields fs).length := by
  induction fs with
  | nil => simp [emitFields]
  | cons p fs' ih =>
    obtain ⟨k, v⟩ := p
    cases fs' with
    | nil => simp [emitFields, quoteStr]
    | cons p2 fs2 =>
      have hstep : emitFields ((k, v) :: p2 :: fs2)
          = quoteStr k
            ++ Char.ofNat 58 :: (emitVal v ++ Char.ofNat 44 :: emitFields (p2 :: fs2)) := by
        simp [emitFields]
      rw [hstep]
      simp only [List.length_append, List.length_cons, quoteStr]
      simp only [List.length_cons] at ih ⊢
      omega

theorem parseJson_emitObj (fs : List (GoStr × JVal)) :
    parseJson (emitObj fs) = some (Json.obj (fs.map (fun p => (p.1, jval p.2)))) := by
  have hb : emitObj fs ++ [] = emitObj fs := List.append_nil _
  have hlen : fs.length + 1 ≤ (emitObj fs).length + 1 := by
    have h1 := emitFields_len fs
    simp only [emitObj, List.length_cons, List.length_append, List.length_singleton]
    omega
  have h := parseValGo_emitObj fs ((emitObj fs).length + 1) [] (by omega)
  rw [hb] at h
  unfold parseJson
  rw [h]
  rfl

/-! ## The identity assertion (JWT) builder

`cmd/create-jwt/main.go` builds `jwt.MapClaims` with `iss`, `sub`, `aud`,
`iat = now`, `exp = now + 1h`, plus `email` / `environment` only when the
corresponding flag is non-empty; sets the header `kid`; and signs with
RS256.  `golang-jwt`'s `SignedString` serializes header and claims with
`encoding/json.Marshal` (which sorts map keys) and joins the two base64url
segments and the signature segment with dots.  `step2_create_jwt.go` is the
config-file variant whose claim map always contains `email`/`environment`. -/

/-- Claim inputs of the flag-driven builder (`cmd/create-jwt`).  An empty
`email`/`environment` models the flag being absent. -/
structure ClaimSet where
  issuer : GoStr
  subject : GoStr
  audience : GoStr
  email : GoStr
  environment : GoStr

/-- The claims map as `json.Marshal` orders it (keys sorted), for the
flag-driven builder: optional claims appear only when non-empty. -/
def claimsFields (c : ClaimSet) (now : Nat) : List (GoStr × JVal) :=
  [("aud".toList, JVal.s c.audience)]
    ++ (if c.email = [] then [] else [("email".toList, JVal.s c.email)])
    ++ (if c.environment = [] then [] else [("environment".toList, JVal.s c.environment)])
    ++ [("exp".toList, JVal.n (now + 3600)), ("iat".toList, JVal.n now),
      ("iss".toList, JVal.s c.issuer), ("sub".toList, JVal.s c.subject)]

/-- The claims map of the config-file builder (`step2_create_jwt.go`), which
always includes `email` and `environment`. -/
def claimsFieldsCfg (issuer subject audience email environment : GoStr) (now : Nat) :
    List (GoStr × JVal) :=
  [("aud".toList, JVal.s audience), ("email".toList, JVal.s email),
    ("environment".toList, JVal.s environment), ("exp".toList, JVal.n (now + 3600)),
    ("iat".toList, JVal.n now), ("iss".toList, JVal.s issuer),
    ("sub".toList, JVal.s subject)]

/-- The JWT header map (`alg`, `kid`, `typ`, in `json.Marshal` key order). -/
def headerFields (keyID : GoStr) : List (GoStr × JVal) :=
  [("alg".toList, JVal.s ("RS256".toList)), ("kid".toList, JVal.s keyID),
    ("typ".toList, JVal.s ("JWT".toList))]

/-- The two dot-joined base64url segments that get signed. -/
def signingInput (c : ClaimSet) (now : Nat) (keyID : GoStr) : GoStr :=
  b64Encode (utf8Str (emitObj (headerFields keyID)))
    ++ Char.ofNat 46 :: b64Encode (utf8Str (emitObj (claimsFields c now)))

/-- The compact JWT: signing input, a dot, and the base64url signature.  The
RS256 signature itself is abstract: `sig` is whatever byte string the signer
produced for the signing input. -/
def buildJWT (c : ClaimSet) (now : Nat) (keyID : GoStr) (sig : List Nat) : GoStr :=
  signingInput c now keyID ++ Char.ofNat 46 :: b64Encode sig

/-- Split a compact serialization at its dots. -/
def splitDots : GoStr → List GoStr
  | [] => [[]]
  | c :: rest =>
    if c = Char.ofNat 46 then [] :: splitDots rest
    else
      match splitDots rest with
      | [] => [[c]]
      | s :: ss => (c :: s) :: ss

/-- Decode a compact JWT: split on dots into exactly three segments, decode
each from base64url, and parse header and claims as JSON. -/
def decodeJWT (tok : GoStr) : Option (Json × Json × List Nat) :=
  match splitDots tok with
  | [hseg, cseg, sseg] => do
      let hb ← b64Decode hseg
      let hj ← utf8Dec hb
      let hdr ← parseJson hj
      let cb ← b64Decode cseg
      let cj ← utf8Dec cb
      let cl ← parseJson cj
      let sb ← b64Decode sseg
      pure (hdr, cl, sb)
  | _ => none

theorem splitDots_run (x : GoStr) (hx : ∀ c ∈ x, c ≠ Char.ofNat 46) (r : GoStr) :
    splitDots (x ++ Char.ofNat 46 :: r) = x :: splitDots r := by
  induction x with
  | nil =>
    simp [splitDots]
  | cons c x' ih =>
    have hc : c ≠ Char.ofNat 46 := hx c (by simp)
    have ih2 := ih (fun d hd => hx d (by simp [hd]))
    rw [List.cons_append, splitDots, if_neg hc, ih2]

theorem splitDots_single (z : GoStr) (hz : ∀ c ∈ z, c ≠ Char.ofNat 46) :
    splitDots z = [z] := by
  induction z with
  | nil => rfl
  | cons c z' ih =>
    have hc : c ≠ Char.ofNat 46 := hz c (by simp)
    have ih2 := ih (fun d hd => hz d (by simp [hd]))
    rw [splitDots, if_neg hc, ih2]

theorem splitDots_buildJWT (c : ClaimSet) (now : Nat) (keyID : GoStr) (sig : List Nat) :
    splitDots (buildJWT c now keyID sig)
      = [b64Encode (utf8Str (emitObj (headerFields keyID))),
          b64Encode (utf8Str (emitObj (claimsFields c now))), b64Encode sig] := by
  unfold buildJWT signingInput
  rw [List.append_assoc, List.cons_append]
  rw [splitDots_run _ (b64Encode_no_dot _) _,
    splitDots_run _ (b64Encode_no_dot _) _,
    splitDots_single _ (b64Encode_no_dot _)]

theorem decodeJWT_build (c : ClaimSet) (now : Nat) (keyID : GoStr) (sig : List Nat)
    (hsig : ∀ b ∈ sig, b < 256) :
    decodeJWT (buildJWT c now keyID sig)
      = some (Json.obj ((headerFields keyID).map (fun p => (p.1, jval p.2))),
          Json.obj ((claimsFields c now).map (fun p => (p.1, jval p.2))), sig) := by
  have h1 : b64Decode (b64Encode (utf8Str (emitObj (headerFields keyID))))
      = some (utf8Str (emitObj (headerFields keyID))) :=
    b64_roundtrip _ (utf8Str_bytes _)
  have h2 : b64Decode (b64Encode (utf8Str (emitObj (claimsFields c now))))
      = some (utf8Str (emitObj (claimsFields c now))) :=
    b64_roundtrip _ (utf8Str_bytes _)
  have h3 := b64_roundtrip sig hsig
  simp only [decodeJWT, splitDots_buildJWT, h1, h2, h3, utf8_roundtrip, parseJson_emitObj,
    Option.bind_eq_bind, Option.some_bind, Option.pure_def]

/-! ## Field access (Go `encoding/json` object decoding)

`json.Unmarshal` keeps the last value for a duplicated key, treats a missing
or `null` field as the Go zero value, and rejects a type-mismatched field.
The match here is by exact name (the Go fallback to case-insensitive match
is never exercised by these programs). -/

/-- Look up a field; on duplicate keys the last occurrence wins. -/
def getField (fields : List (GoStr × Json)) (k : GoStr) : Option Json :=
  match fields with
  | [] => none
  | (k2, v) :: rest =>
    match getField rest k with
    | some v2 => some v2
    | none => if k2 = k then some v else none

/-! ## HTTP model

A request records everything the Go code puts on the wire; a deterministic
environment function (`Net`) stands for the network.  Every embedded network
function returns the list of requests it issued, in order, so the temporal
claims are statements about these traces. -/

/-- The body of a request: empty, URL-encoded form parameters, or JSON. -/
inductive Body where
  | empty
  | form (params : List (GoStr × GoStr))
  | json (j : Json)

/-- An HTTP request as the embedded programs build it. -/
structure HTTPRequest where
  method : GoStr
  url : GoStr
  headers : List (GoStr × GoStr)
  body : Body

/-- An HTTP response: status code and raw body. -/
structure HTTPResponse where
  status : Nat
  body : GoStr

/-- The network environment: what each request would receive. -/
abbrev Net := HTTPRequest → HTTPResponse

/-- `TokenResponse` of `cmd/exchange-token/main.go`: the common normalized
token shape (JSON names `access_token`, `token_type`, `expires_in`). -/
structure TokenResponse where
  AccessToken : GoStr
  TokenType : GoStr
  ExpiresIn : Int

/-- `json.Unmarshal` of a body into `TokenResponse`. -/
def unmarshalTokenResponse (j : Json) : Option TokenResponse :=
  match j with
  | .null => some ⟨[], [], 0⟩
  | .obj fields =>
    (match getField fields ("access_token".toList) with
      | none => some []
      | some (.str s) => some s
      | some .null => some []
      | some _ => none).bind
      (fun at_ =>
        (match getField fields ("token_type".toList) with
          | none => some []
          | some (.str s) => some s
          | some .null => some []
          | some _ => none).bind
          (fun tt =>
            (match getField fields ("expires_in".toList) with
              | none => some (0 : Int)
              | some (.num n) => some n
              | some .null => some (0 : Int)
              | some _ => none).map
              (fun ei => ⟨at_, tt, ei⟩)))
  | _ => none

/-- Build the form-encoded POST that `callSTSEndpoint` sends via `http.Post`
(the content type is the header `http.Post` sets). -/
def mkFormPost (endpoint : GoStr) (params : List (GoStr × GoStr)) : HTTPRequest :=
  ⟨"POST".toList, endpoint,
    [("Content-Type".toList, "application/x-www-form-urlencoded".toList)],
    Body.form params⟩

/-- `callSTSEndpoint` of `cmd/exchange-token/main.go`: one POST; a non-200
status becomes an error carrying the status and raw body; a 200 body is
decoded as a `TokenResponse`. -/
def callSTSEndpoint (net : Net) (endpoint : GoStr) (requestBody : List (GoStr × GoStr)) :
    Except GoStr TokenResponse × List HTTPRequest :=
  let req := mkFormPost endpoint requestBody
  let resp := net req
  if resp.status ≠ 200 then
    (.error ("STS API error (status ".toList ++ natStr resp.status
      ++ "): ".toList ++ resp.body), [req])
  else
    match (parseJson resp.body).bind unmarshalTokenResponse with
    | some tr => (.ok tr, [req])
    | none => (.error ("failed to parse response".toList), [req])

/-- The STS token endpoint URL. -/
def stsURL : GoStr := "https://sts.googleapis.com/v1/token".toList

/-- The stage-A `audience`, exactly as `fmt.Sprintf` assembles it. -/
def audienceStr (projectNumber poolID providerID : GoStr) : GoStr :=
  "//iam.googleapis.com/projects/".toList ++ projectNumber
    ++ "/locations/global/workloadIdentityPools/".toList ++ poolID
    ++ "/providers/".toList ++ providerID

/-- The stage-A form parameters, in the order of the Go map literal (the
`url.Values` built from the map carries exactly these pairs). -/
def stageAParams (externalToken projectNumber poolID providerID : GoStr) :
    List (GoStr × GoStr) :=
  [("grant_type".toList, "urn:ietf:params:oauth:grant-type:token-exchange".toList),
    ("audience".toList, audienceStr projectNumber poolID providerID),
    ("requested_token_type".toList, "urn:ietf:params:oauth:token-type:access_token".toList),
    ("subject_token_type".toList, "urn:ietf:params:oauth:token-type:jwt".toList),
    ("subject_token".toList, externalToken),
    ("scope".toList, "https://www.googleapis.com/auth/cloud-platform".toList)]

/-- The one request a stage-A call puts on the wire. -/
def mkStageARequest (externalToken projectNumber poolID providerID : GoStr) : HTTPRequest :=
  mkFormPost stsURL (stageAParams externalToken projectNumber poolID providerID)

/-- Stage A (`exchangeForFederatedToken`): external JWT to federated token. -/
def exchangeForFederatedToken (net : Net)
    (externalToken projectNumber poolID providerID : GoStr) :
    Except GoStr TokenResponse × List HTTPRequest :=
  callSTSEndpoint net stsURL (stageAParams externalToken projectNumber poolID providerID)

/-- The service-account credentials endpoint for stage B. -/
def saURL (serviceAccountEmail : GoStr) : GoStr :=
  "https://iamcredentials.googleapis.com/v1/projects/-/serviceAccounts/".toList
    ++ serviceAccountEmail ++ ":generateAccessToken".toList

/-- The JSON body of a stage-B request. -/
def scopeJson : Json :=
  Json.obj [("scope".toList,
    Json.arr [Json.str ("https://www.googleapis.com/auth/cloud-platform".toList)])]

/-- The one request a stage-B call puts on the wire.  The Authorization
header carries the federated token as the bearer credential. -/
def mkStageBRequest (federatedToken serviceAccountEmail : GoStr) : HTTPRequest :=
  ⟨"POST".toList, saURL serviceAccountEmail,
    [("Authorization".toList, "Bearer ".toList ++ federatedToken),
      ("Content-Type".toList, "application/json".toList)],
    Body.json scopeJson⟩

/-- The stage-B response shape (`accessToken`, `expireTime`). -/
structure SAResp where
  accessToken : GoStr
  expireTime : GoStr

/-- `json.Unmarshal` of a stage-B body. -/
def unmarshalSAResp (j : Json) : Option SAResp :=
  match j with
  | .null => some ⟨[], []⟩
  | .obj fields =>
    (match getField fields ("accessToken".toList) with
      | none => some []
      | some (.str s) => some s
      | some .null => some []
      | some _ => none).bind
      (fun at_ =>
        (match getField fields ("expireTime".toList) with
          | none => some []
          | some (.str s) => some s
          | some .null => some []
          | some _ => none).map
          (fun et => ⟨at_, et⟩))
  | _ => none

/-- Stage B (`exchangeForAccessToken`): federated token to impersonated
access token; normalizes the distinct response shape into `TokenResponse`
with `token_type = "Bearer"` and the fixed `expires_in = 3600`. -/
def exchangeForAccessToken (net : Net) (federatedToken serviceAccountEmail : GoStr) :
    Except GoStr TokenResponse × List HTTPRequest :=
  let req := mkStageBRequest federatedToken serviceAccountEmail
  let resp := net req
  if resp.status ≠ 200 then
    (.error ("IAM API error (status ".toList ++ natStr resp.status
      ++ "): ".toList ++ resp.body), [req])
  else
    match (parseJson resp.body).bind unmarshalSAResp with
    | some sa => (.ok ⟨sa.accessToken, "Bearer".toList, 3600⟩, [req])
    | none => (.error ("failed to parse response".toList), [req])

/-- The exchange pipeline of `main`: stage A first; only on its success,
stage B with the returned federated access token.  The trace collects the
requests both stages issued, in order. -/
def runExchange (net : Net)
    (externalToken projectNumber poolID providerID serviceAccount : GoStr) :
    Except GoStr TokenResponse × List HTTPRequest :=
  match exchangeForFederatedToken net externalToken projectNumber poolID providerID with
  | (.error e, tr) => (.error e, tr)
  | (.ok fed, tr) =>
    match exchangeForAccessToken net fed.AccessToken serviceAccount with
    | (r, tr2) => (r, tr ++ tr2)

/-! ## The resource client (`cmd/list-topics/main.go`) -/

/-- The decoded Pub/Sub response: the topic names. -/
structure PubSubTopicsResponse where
  topics : List GoStr

/-- The Pub/Sub list-topics URL. -/
def pubsubURL (projectID : GoStr) : GoStr :=
  "https://pubsub.googleapis.com/v1/projects/".toList ++ projectID ++ "/topics".toList

/-- The one request `listPubSubTopics` sends. -/
def mkListTopicsRequest (projectID accessToken : GoStr) : HTTPRequest :=
  ⟨"GET".toList, pubsubURL projectID,
    [("Authorization".toList, "Bearer ".toList ++ accessToken),
      ("Content-Type".toList, "application/json".toList)],
    Body.empty⟩

/-- Decode one element of the `topics` array (an object with a `name`). -/
def unmarshalTopic (j : Json) : Option GoStr :=
  match j with
  | .null => some []
  | .obj fields =>
    match getField fields ("name".toList) with
    | none => some []
    | some (.str s) => some s
    | some .null => some []
    | some _ => none
  | _ => none

/-- Decode every element of the `topics` array. -/
def unmarshalTopicList : List Json → Option (List GoStr)
  | [] => some []
  | j :: rest => (unmarshalTopic j).bind (fun t => (unmarshalTopicList rest).map (t :: ·))

/-- `json.Unmarshal` of a Pub/Sub body: a missing or null `topics` field is
the zero value (an empty list). -/
def unmarshalTopics (j : Json) : Option PubSubTopicsResponse :=
  match j with
  | .null => some ⟨[]⟩
  | .obj fields =>
    match getField fields ("topics".toList) with
    | none => some ⟨[]⟩
    | some .null => some ⟨[]⟩
    | some (.arr xs) => (unmarshalTopicList xs).map (fun ts => ⟨ts⟩)
    | some _ => none
  | _ => none

/-- `listPubSubTopics`: one authenticated GET; a non-200 status becomes an
error carrying the status and raw body; a 200 body is decoded, and an empty
`topics` array is an ordinary success. -/
def listPubSubTopics (net : Net) (projectID accessToken : GoStr) :
    Except GoStr PubSubTopicsResponse × List HTTPRequest :=
  let req := mkListTopicsRequest projectID accessToken
  let resp := net req
  if resp.status ≠ 200 then
    (.error ("API error (status ".toList ++ natStr resp.status
      ++ "): ".toList ++ resp.body), [req])
  else
    match (parseJson resp.body).bind unmarshalTopics with
    | some ts => (.ok ts, [req])
    | none => (.error ("failed to parse response".toList), [req])

/-! ## The setup script's retry loop (`setup.sh`)

`MAX_RETRIES=30`, `RETRY_DELAY=10`: attempt the whole exchange; stop with
success at the first attempt that succeeds; sleep `RETRY_DELAY` between
attempts; after the 30th failed attempt, exit fatally.  `attempt k` is the
outcome of the k-th run of `exchange-token` (command success and a non-empty
output file); `remaining` is `MAX_RETRIES - RETRY_COUNT`, so the recursion
is structural. -/

/-- How the retry loop ends. -/
inductive LoopExit where
  | success (attempts : Nat)
  | fatal (attempts : Nat)
  | fellThrough

/-- One `while` iteration: increment the counter, run the attempt, break on
success, sleep and continue on failure while attempts remain, otherwise
exit fatally.  The second component records the sleeps performed. -/
def retryAux (attempt : Nat → Bool) (delay : Nat) : Nat → Nat → LoopExit × List Nat
  | 0, _ => (.fellThrough, [])
  | remaining + 1, count =>
    let c := count + 1
    if attempt c then (.success c, [])
    else
      if remaining > 0 then
        let r := retryAux attempt delay remaining c
        (r.1, delay :: r.2)
      else (.fatal c, [])

/-- The setup script's loop: 30 attempts at a 10-second interval. -/
def runSetupRetry (attempt : Nat → Bool) : LoopExit × List Nat :=
  retryAux attempt 10 30 0

/-! ## The key-set export (`cmd/generate-jwk/main.go`) -/

/-- Fuel-indexed big-endian bytes of a natural (Go `big.Int.Bytes`: minimal
big-endian representation, empty for zero). -/
def natBytesBEGo : Nat → Nat → List Nat
  | 0, _ => []
  | fuel + 1, n => if n = 0 then [] else natBytesBEGo fuel (n / 256) ++ [n % 256]

/-- Big-endian bytes of a natural number. -/
def natBytesBE (n : Nat) : List Nat := natBytesBEGo (n + 1) n

/-- The numeric value of a big-endian byte string. -/
def beVal (bs : List Nat) : Nat := bs.foldl (fun a b => a * 256 + b) 0

/-- One JWK entry as `generate-jwk` builds it. -/
structure JWK where
  kty : GoStr
  use : GoStr
  kid : GoStr
  alg : GoStr
  n : GoStr
  e : GoStr

/-- A JWK set. -/
structure JWKS where
  keys : List JWK

/-- `generate-jwk`: wrap an RSA public key (modulus `N`, exponent `E`) as a
single-entry JWK set, with `n`/`e` the unpadded base64url encodings of the
big-endian bytes. -/
def exportPublicAsKeySet (N E : Nat) (keyID : GoStr) : JWKS :=
  ⟨[⟨"RSA".toList, "sig".toList, keyID, "RS256".toList,
    b64Encode (natBytesBE N), b64Encode (natBytesBE E)⟩]⟩

theorem natBytesBEGo_fuel (n : Nat) : ∀ f g, n < f → n < g → natBytesBEGo f n = natBytesBEGo g n := by
  induction n using Nat.strong_induction_on with
  | _ n ih =>
    intro f g hf hg
    match f, g with
    | f + 1, g + 1 =>
      by_cases h0 : n = 0
      · simp [natBytesBEGo, h0]
      · have hd : n / 256 < n := Nat.div_lt_self (by omega) (by omega)
        simp only [natBytesBEGo, if_neg h0]
        rw [ih (n / 256) hd f g (by omega) (by omega)]

theorem natBytesBE_unfold (n : Nat) :
    natBytesBE n = if n = 0 then [] else natBytesBE (n / 256) ++ [n % 256] := by
  show natBytesBEGo (n + 1) n = _
  by_cases h0 : n = 0
  · simp [natBytesBEGo, h0]
  · have hd : n / 256 < n := Nat.div_lt_self (by omega) (by omega)
    simp only [natBytesBEGo, if_neg h0]
    rw [natBytesBEGo_fuel (n / 256) n (n / 256 + 1) (by omega) (by omega)]
    rfl

theorem beVal_aux_natBytesBE (n : Nat) : ∀ a : Nat,
    (natBytesBE n).foldl (fun a b => a * 256 + b) a
      = a * 256 ^ (natBytesBE n).length + n := by
  induction n using Nat.strong_induction_on with
  | _ n ih =>
    intro a
    by_cases h0 : n = 0
    · rw [natBytesBE_unfold, if_pos h0]
      simp [h0]
    · have hd : n / 256 < n := Nat.div_lt_self (by omega) (by omega)
      rw [natBytesBE_unfold, if_neg h0, List.foldl_append]
      simp only [List.foldl_cons, List.foldl_nil]
      rw [ih (n / 256) hd a]
      simp only [List.length_append, List.length_singleton]
      rw [pow_succ, ← mul_assoc]
      generalize a * 256 ^ (natBytesBE (n / 256)).length = m
      omega

theorem beVal_natBytesBE (n : Nat) : beVal (natBytesBE n) = n := by
  have := beVal_aux_natBytesBE n 0
  simpa [beVal] using this

theorem natBytesBE_no_leading_zero (n : Nat) : (natBytesBE n).head? ≠ some 0 := by
  induction n using Nat.strong_induction_on with
  | _ n ih =>
    by_cases h0 : n = 0
    · rw [natBytesBE_unfold, if_pos h0]
      simp
    · by_cases h256 : n / 256 = 0
      · rw [natBytesBE_unfold, if_neg h0,
          show natBytesBE (n / 256) = [] by rw [natBytesBE_unfold, if_pos h256]]
        simp only [List.nil_append, List.head?_cons, ne_eq, Option.some.injEq]
        omega
      · have hd : n / 256 < n := Nat.div_lt_self (by omega) (by omega)
        have ihd := ih (n / 256) hd
        have hne : natBytesBE (n / 256) ≠ [] := by
          rw [natBytesBE_unfold, if_neg h256]
          simp
        obtain ⟨b, bs, hb⟩ := List.exists_cons_of_ne_nil hne
        rw [natBytesBE_unfold, if_neg h0, hb]
        rw [hb] at ihd
        simpa using ihd

theorem natBytesBE_bytes (n : Nat) : ∀ b ∈ natBytesBE n, b < 256 := by
  induction n using Nat.strong_induction_on with
  | _ n ih =>
    rw [natBytesBE_unfold]
    by_cases h0 : n = 0
    · simp [h0]
    · simp only [if_neg h0, List.mem_append, List.mem_singleton]
      rintro b (hb | rfl)
      · exact ih (n / 256) (Nat.div_lt_self (by omega) (by omega)) b hb
      · exact Nat.mod_lt _ (by omega)

theorem retryAux_success (attempt : Nat → Bool) (delay : Nat) (k : Nat) (hk : attempt k = true) :
    ∀ remaining count, count < k → k ≤ count + remaining →
      (∀ j, count < j → j < k → attempt j = false) →
      retryAux attempt delay remaining count = (.success k, List.replicate (k - count - 1) delay) := by
  intro remaining
  induction remaining with
  | zero =>
    intro count h1 h2 _
    omega
  | succ r ih =>
    intro count h1 h2 hfail
    by_cases hck : count + 1 = k
    · rw [retryAux, hck, hk]
      simp only [if_pos rfl]
      rw [show k - count - 1 = 0 by omega]
      rfl
    · have hc : attempt (count + 1) = false := hfail (count + 1) (by omega) (by omega)
      rw [retryAux, hc]
      simp only [Bool.false_eq_true, if_false]
      rw [if_pos (by omega : r > 0), ih (count + 1) (by omega) (by omega)
        (fun j hj1 hj2 => hfail j (by omega) hj2)]
      simp only []
      rw [show k - count - 1 = (k - (count + 1) - 1) + 1 by omega]
      rfl

theorem retryAux_allfail (attempt : Nat → Bool) (delay : Nat) :
    ∀ remaining count, 0 < remaining →
      (∀ j, count < j → j ≤ count + remaining → attempt j = false) →
      retryAux attempt delay remaining count
        = (.fatal (count + remaining), List.replicate (remaining - 1) delay) := by
  intro remaining
  induction remaining with
  | zero =>
    intro count h1 _
    omega
  | succ r ih =>
    intro count _ hfail
    have hc : attempt (count + 1) = false := hfail (count + 1) (by omega) (by omega)
    rw [retryAux, hc]
    simp only [Bool.false_eq_true, if_false]
    by_cases hr : r > 0
    · rw [if_pos hr, ih (count + 1) (by omega) (fun j hj1 hj2 => hfail j (by omega) (by omega))]
      simp only []
      rw [show count + 1 + r = count + (r + 1) by omega,
        show r + 1 - 1 = (r - 1) + 1 by omega]
      rfl
    · have hr0 : r = 0 := by omega
      rw [if_neg hr, hr0]
      rfl

/-- Look up an emitted claim by name (last occurrence wins, as in `getField`;
the claim maps never repeat a key). -/
def fieldVal (fs : List (GoStr × JVal)) (k : GoStr) : Option JVal :=
  match fs with
  | [] => none
  | (k2, v) :: rest =>
    match fieldVal rest k with
    | some v2 => some v2
    | none => if k2 = k then some v else none

/-- Look up a form parameter (`url.Values.Get`: first occurrence). -/
def formLookup : List (GoStr × GoStr) → GoStr → Option GoStr
  | [], _ => none
  | (k2, v) :: rest, k => if k2 = k then some v else formLookup rest k

theorem callSTSEndpoint_trace (net : Net) (endpoint : GoStr) (ps : List (GoStr × GoStr)) :
    (callSTSEndpoint net endpoint ps).2 = [mkFormPost endpoint ps] := by
  simp only [callSTSEndpoint]
  split
  · rfl
  · split <;> rfl

theorem exchangeForFederatedToken_trace (net : Net)
    (externalToken projectNumber poolID providerID : GoStr) :
    (exchangeForFederatedToken net externalToken projectNumber poolID providerID).2
      = [mkStageARequest externalToken projectNumber poolID providerID] :=
  callSTSEndpoint_trace net stsURL (stageAParams externalToken projectNumber poolID providerID)

theorem exchangeForAccessToken_trace (net : Net) (federatedToken serviceAccountEmail : GoStr) :
    (exchangeForAccessToken net federatedToken serviceAccountEmail).2
      = [mkStageBRequest federatedToken serviceAccountEmail] := by
  simp only [exchangeForAccessToken]
  split
  · rfl
  · split <;> rfl

theorem listPubSubTopics_trace (net : Net) (projectID accessToken : GoStr) :
    (listPubSubTopics net projectID accessToken).2
      = [mkListTopicsRequest projectID accessToken] := by
  simp only [listPubSubTopics]
  split
  · rfl
  · split <;> rfl

theorem stageA_ne_stageB (a b c d tok sa : GoStr) :
    mkStageARequest a b c d ≠ mkStageBRequest tok sa := by
  intro h
  have hh := congrArg (fun r => r.headers.length) h
  simp [mkStageARequest, mkFormPost, mkStageBRequest] at hh

/-! ## The claims -/

/-- C1: In every run of the exchange pipeline, stage B is invoked only after
stage A returns successfully, and the bearer credential in stage B's
Authorization header is exactly the `access_token` returned by that stage A
call; if stage A fails, stage B is never attempted.  Stated over the request
trace of `runExchange`: on stage-A failure the trace is the single stage-A
request (and contains no stage-B request at all); on stage-A success the
trace is the stage-A request followed by exactly one stage-B request whose
Authorization header carries `Bearer` plus stage A's access token. -/
theorem exchange_pipeline_ordering (net : Net)
    (externalToken projectNumber poolID providerID serviceAccount : GoStr) :
    (∀ e, (exchangeForFederatedToken net externalToken projectNumber poolID providerID).1
        = Except.error e →
      (runExchange net externalToken projectNumber poolID providerID serviceAccount).2
        = [mkStageARequest externalToken projectNumber poolID providerID]
      ∧ ∀ req ∈ (runExchange net externalToken projectNumber poolID providerID
          serviceAccount).2, ∀ tok sa, req ≠ mkStageBRequest tok sa)
    ∧ (∀ fed, (exchangeForFederatedToken net externalToken projectNumber poolID providerID).1
        = Except.ok fed →
      (runExchange net externalToken projectNumber poolID providerID serviceAccount).2
        = [mkStageARequest externalToken projectNumber poolID providerID,
            mkStageBRequest fed.AccessToken serviceAccount]
      ∧ (mkStageBRequest fed.AccessToken serviceAccount).headers
        = [("Authorization".toList, "Bearer ".toList ++ fed.AccessToken),
            ("Content-Type".toList, "application/json".toList)]) := by
  have htrA := exchangeForFederatedToken_trace net externalToken projectNumber poolID providerID
  constructor
  · intro e he
    cases hx : exchangeForFederatedToken net externalToken projectNumber poolID providerID with
    | mk res tr =>
      rw [hx] at he htrA
      replace he : res = Except.error e := he
      replace htrA : tr = [mkStageARequest externalToken projectNumber poolID providerID] := htrA
      subst he
      subst htrA
      have hrun : (runExchange net externalToken projectNumber poolID providerID
          serviceAccount).2
          = [mkStageARequest externalToken projectNumber poolID providerID] := by
        unfold runExchange
        rw [hx]
      refine ⟨hrun, ?_⟩
      rw [hrun]
      intro req hreq tok sa
      rw [List.mem_singleton] at hreq
      subst hreq
      exact stageA_ne_stageB _ _ _ _ tok sa
  · intro fed hfed
    cases hx : exchangeForFederatedToken net externalToken projectNumber poolID providerID with
    | mk res tr =>
      rw [hx] at hfed htrA
      replace hfed : res = Except.ok fed := hfed
      replace htrA : tr = [mkStageARequest externalToken projectNumber poolID providerID] := htrA
      subst hfed
      subst htrA
      have htrB := exchangeForAccessToken_trace net fed.AccessToken serviceAccount
      cases hy : exchangeForAccessToken net fed.AccessToken serviceAccount with
      | mk res2 tr2 =>
        rw [hy] at htrB
        replace htrB : tr2 = [mkStageBRequest fed.AccessToken serviceAccount] := htrB
        subst htrB
        constructor
        · simp [runExchange, hx, hy]
        · rfl

/-- C2: decoding the three base64url segments of the JWT produced by the
assertion builder yields a header whose `kid` is the given key id and a
claims object equal to the input claim set, apart from the derived
`iat`/`exp`, which satisfy `exp - iat = 3600` (the builder's fixed one-hour
validity).  The decode returns exactly the serialized header and claim maps,
and the field lookups recover every input claim verbatim. -/
theorem assertion_roundtrip (c : ClaimSet) (now : Nat) (keyID : GoStr) (sig : List Nat)
    (hsig : ∀ b ∈ sig, b < 256) :
    decodeJWT (buildJWT c now keyID sig)
      = some (Json.obj ((headerFields keyID).map (fun p => (p.1, jval p.2))),
          Json.obj ((claimsFields c now).map (fun p => (p.1, jval p.2))), sig)
    ∧ getField ((headerFields keyID).map (fun p => (p.1, jval p.2))) ("kid".toList)
        = some (Json.str keyID)
    ∧ getField ((claimsFields c now).map (fun p => (p.1, jval p.2))) ("iss".toList)
        = some (Json.str c.issuer)
    ∧ getField ((claimsFields c now).map (fun p => (p.1, jval p.2))) ("sub".toList)
        = some (Json.str c.subject)
    ∧ getField ((claimsFields c now).map (fun p => (p.1, jval p.2))) ("aud".toList)
        = some (Json.str c.audience)
    ∧ getField ((claimsFields c now).map (fun p => (p.1, jval p.2))) ("email".toList)
        = (if c.email = [] then none else some (Json.str c.email))
    ∧ getField ((claimsFields c now).map (fun p => (p.1, jval p.2))) ("environment".toList)
        = (if c.environment = [] then none else some (Json.str c.environment))
    ∧ getField ((claimsFields c now).map (fun p => (p.1, jval p.2))) ("iat".toList)
        = some (Json.num (now : Int))
    ∧ getField ((claimsFields c now).map (fun p => (p.1, jval p.2))) ("exp".toList)
        = some (Json.num ((now + 3600 : Nat) : Int))
    ∧ (now + 3600) - now = 3600 := by
  refine ⟨decodeJWT_build c now keyID sig hsig, rfl, ?_, ?_, ?_, ?_, ?_, ?_, ?_, by omega⟩ <;>
    by_cases he : c.email = [] <;> by_cases hv : c.environment = [] <;>
      simp only [claimsFields, he, hv, eq_self_iff_true, ite_true, ite_false,
        List.append_assoc, List.cons_append, List.nil_append, List.map_cons, List.map_nil] <;>
      rfl

/-- C3: the stage-A request is a form-encoded POST whose `audience` is
exactly the workload-identity-pool provider identifier assembled from the
project number, pool id and provider id, with the token-exchange grant type,
the assertion as `subject_token`, the jwt/access_token type URNs, a scope
string — and no parameters other than those six. -/
theorem stageA_request_shape (externalToken projectNumber poolID providerID : GoStr) :
    (mkStageARequest externalToken projectNumber poolID providerID).method = "POST".toList
    ∧ (mkStageARequest externalToken projectNumber poolID providerID).headers
        = [("Content-Type".toList, "application/x-www-form-urlencoded".toList)]
    ∧ (mkStageARequest externalToken projectNumber poolID providerID).body
        = Body.form (stageAParams externalToken projectNumber poolID providerID)
    ∧ formLookup (stageAParams externalToken projectNumber poolID providerID)
        ("audience".toList)
        = some ("//iam.googleapis.com/projects/".toList ++ projectNumber
            ++ "/locations/global/workloadIdentityPools/".toList ++ poolID
            ++ "/providers/".toList ++ providerID)
    ∧ formLookup (stageAParams externalToken projectNumber poolID providerID)
        ("grant_type".toList)
        = some ("urn:ietf:params:oauth:grant-type:token-exchange".toList)
    ∧ formLookup (stageAParams externalToken projectNumber poolID providerID)
        ("subject_token".toList) = some externalToken
    ∧ formLookup (stageAParams externalToken projectNumber poolID providerID)
        ("subject_token_type".toList)
        = some ("urn:ietf:params:oauth:token-type:jwt".toList)
    ∧ formLookup (stageAParams externalToken projectNumber poolID providerID)
        ("requested_token_type".toList)
        = some ("urn:ietf:params:oauth:token-type:access_token".toList)
    ∧ formLookup (stageAParams externalToken projectNumber poolID providerID)
        ("scope".toList)
        = some ("https://www.googleapis.com/auth/cloud-platform".toList)
    ∧ (stageAParams externalToken projectNumber poolID providerID).map Prod.fst
        = ["grant_type".toList, "audience".toList, "requested_token_type".toList,
            "subject_token_type".toList, "subject_token".toList, "scope".toList] :=
  ⟨rfl, rfl, rfl, rfl, rfl, rfl, rfl, rfl, rfl, rfl⟩

/-- C4: a successful stage-B response whose body parses as
`{accessToken, expireTime}` is normalized to a `TokenResponse` whose
`access_token` is the response's `accessToken`, whose `token_type` is
exactly `Bearer`, and whose `expires_in` is the fixed default 3600. -/
theorem stageB_normalization (net : Net) (federatedToken serviceAccountEmail at2 et : GoStr)
    (hstatus : (net (mkStageBRequest federatedToken serviceAccountEmail)).status = 200)
    (hparse : (parseJson (net (mkStageBRequest federatedToken serviceAccountEmail)).body).bind
        unmarshalSAResp = some ⟨at2, et⟩) :
    (exchangeForAccessToken net federatedToken serviceAccountEmail).1
      = Except.ok ⟨at2, "Bearer".toList, 3600⟩ := by
  simp only [exchangeForAccessToken, hstatus, hparse, ne_eq]
  simp

/-- C5: the setup script retries the exchange at a fixed 10-second interval
up to a cap of 30 attempts; the first successful attempt (at or before the
cap) terminates the loop with success, having slept 10 seconds between each
of the preceding attempts, and only failure of all 30 attempts is fatal. -/
theorem setup_retry_policy (attempt : Nat → Bool) :
    (∀ k, 1 ≤ k → k ≤ 30 → (∀ j, 1 ≤ j → j < k → attempt j = false) → attempt k = true →
      runSetupRetry attempt = (LoopExit.success k, List.replicate (k - 1) 10))
    ∧ ((∀ j, 1 ≤ j → j ≤ 30 → attempt j = false) →
      runSetupRetry attempt = (LoopExit.fatal 30, List.replicate 29 10)) := by
  constructor
  · intro k hk1 hk30 hfail hk
    have h := retryAux_success attempt 10 k hk 30 0 (by omega) (by omega)
      (fun j hj1 hj2 => hfail j (by omega) hj2)
    rw [runSetupRetry, h, show k - 0 - 1 = k - 1 by omega]
  · intro hfail
    have h := retryAux_allfail attempt 10 30 0 (by omega)
      (fun j hj1 hj2 => hfail j (by omega) (by omega))
    rw [runSetupRetry, h]

/-- C6: a stage-A call whose response status is not 200 returns an error
string that carries the provider's status code and the raw response body
verbatim, and the call issues exactly one HTTP request (no retry). -/
theorem stageA_error_no_retry (net : Net)
    (externalToken projectNumber poolID providerID : GoStr)
    (hstatus : (net (mkStageARequest externalToken projectNumber poolID providerID)).status
      ≠ 200) :
    (exchangeForFederatedToken net externalToken projectNumber poolID providerID).1
      = Except.error ("STS API error (status ".toList
          ++ natStr (net (mkStageARequest externalToken projectNumber poolID providerID)).status
          ++ "): ".toList
          ++ (net (mkStageARequest externalToken projectNumber poolID providerID)).body)
    ∧ (exchangeForFederatedToken net externalToken projectNumber poolID providerID).2
      = [mkStageARequest externalToken projectNumber poolID providerID]
    ∧ (exchangeForFederatedToken net externalToken projectNumber poolID providerID).2.length
      = 1 := by
  refine ⟨?_, exchangeForFederatedToken_trace net externalToken projectNumber poolID providerID,
    by rw [exchangeForFederatedToken_trace]; rfl⟩
  simp only [mkStageARequest] at hstatus
  simp only [exchangeForFederatedToken, callSTSEndpoint, if_pos hstatus]
  rfl

/-- C7: every identity assertion produced by either builder (the flag-driven
one and the config-file one) has integer epoch-second claims with
`exp = iat + 3600` — the fixed one-hour validity window — and hence
`exp > iat`. -/
theorem assertion_expiry_window (c : ClaimSet)
    (issuer subject audience email environment : GoStr) (now : Nat) :
    fieldVal (claimsFields c now) ("iat".toList) = some (JVal.n now)
    ∧ fieldVal (claimsFields c now) ("exp".toList) = some (JVal.n (now + 3600))
    ∧ fieldVal (claimsFieldsCfg issuer subject audience email environment now) ("iat".toList)
        = some (JVal.n now)
    ∧ fieldVal (claimsFieldsCfg issuer subject audience email environment now) ("exp".toList)
        = some (JVal.n (now + 3600))
    ∧ (now + 3600) - now = 3600
    ∧ now < now + 3600 := by
  refine ⟨?_, ?_, rfl, rfl, by omega, by omega⟩ <;>
    by_cases he : c.email = [] <;> by_cases hv : c.environment = [] <;>
      simp only [claimsFields, he, hv, eq_self_iff_true, ite_true, ite_false,
        List.append_assoc, List.cons_append, List.nil_append] <;>
      rfl

/-- C8: a resource-client call with a non-200 response yields an error
carrying the status code and response body; a 200 response whose `topics`
array is empty (or absent) is a success carrying the empty topic list, so
the two outcomes are distinguished by the status code. -/
theorem resource_call_outcomes (net : Net) (projectID accessToken : GoStr) :
    ((net (mkListTopicsRequest projectID accessToken)).status ≠ 200 →
      (listPubSubTopics net projectID accessToken).1
        = Except.error ("API error (status ".toList
            ++ natStr (net (mkListTopicsRequest projectID accessToken)).status
            ++ "): ".toList ++ (net (mkListTopicsRequest projectID accessToken)).body))
    ∧ ((net (mkListTopicsRequest projectID accessToken)).status = 200 →
      (parseJson (net (mkListTopicsRequest projectID accessToken)).body).bind unmarshalTopics
          = some ⟨[]⟩ →
      (listPubSubTopics net projectID accessToken).1 = Except.ok ⟨[]⟩) := by
  constructor
  · intro hstatus
    simp only [listPubSubTopics, if_pos hstatus]
  · intro hstatus hparse
    simp only [listPubSubTopics, hstatus, hparse, ne_eq]
    simp

/-- C9: the exported key set is a single-entry set whose one key has kty
`RSA`, use `sig`, the given kid, alg `RS256`, and whose `n` and `e` are the
unpadded base64url encodings of the big-endian byte representations of the
modulus and exponent: decoding them recovers byte strings whose big-endian
value is exactly `N` resp. `E`, with no leading zero byte. -/
theorem keyset_export_shape (N E : Nat) (keyID : GoStr) :
    exportPublicAsKeySet N E keyID
      = ⟨[⟨"RSA".toList, "sig".toList, keyID, "RS256".toList,
          b64Encode (natBytesBE N), b64Encode (natBytesBE E)⟩]⟩
    ∧ (exportPublicAsKeySet N E keyID).keys.length = 1
    ∧ b64Decode (b64Encode (natBytesBE N)) = some (natBytesBE N)
    ∧ b64Decode (b64Encode (natBytesBE E)) = some (natBytesBE E)
    ∧ beVal (natBytesBE N) = N
    ∧ beVal (natBytesBE E) = E
    ∧ (natBytesBE N).head? ≠ some 0
    ∧ (natBytesBE E).head? ≠ some 0 :=
  ⟨rfl, rfl, b64_roundtrip _ (natBytesBE_bytes N), b64_roundtrip _ (natBytesBE_bytes E),
    beVal_natBytesBE N, beVal_natBytesBE E,
    natBytesBE_no_leading_zero N, natBytesBE_no_leading_zero E⟩

/-- C10: in the flag-driven assertion builder, an empty `email` or
`environment` input leaves the corresponding claim entirely absent from the
claim set, while a non-empty one is included verbatim. -/
theorem optional_claims_presence (issuer subject audience email environment : GoStr)
    (now : Nat) :
    fieldVal (claimsFields ⟨issuer, subject, audience, [], environment⟩ now) ("email".toList)
        = none
    ∧ (email ≠ [] →
      fieldVal (claimsFields ⟨issuer, subject, audience, email, environment⟩ now)
          ("email".toList) = some (JVal.s email))
    ∧ fieldVal (claimsFields ⟨issuer, subject, audience, email, []⟩ now)
        ("environment".toList) = none
    ∧ (environment ≠ [] →
      fieldVal (claimsFields ⟨issuer, subject, audience, email, environment⟩ now)
          ("environment".toList) = some (JVal.s environment)) := by
  refine ⟨?_, ?_, ?_, ?_⟩
  · by_cases hv : environment = [] <;>
      simp only [claimsFields, hv, eq_self_iff_true, ite_true, ite_false,
        List.append_assoc, List.cons_append, List.nil_append] <;>
      rfl
  · intro he
    by_cases hv : environment = [] <;>
      simp only [claimsFields, he, hv, eq_self_iff_true, ite_true, ite_false,
        List.append_assoc, List.cons_append, List.nil_append] <;>
      rfl
  · by_cases he : email = [] <;>
      simp only [claimsFields, he, eq_self_iff_true, ite_true, ite_false,
        List.append_assoc, List.cons_append, List.nil_append] <;>
      rfl
  · intro hv
    by_cases he : email = [] <;>
      simp only [claimsFields, he, hv, eq_self_iff_true, ite_true, ite_false,
        List.append_assoc, List.cons_append, List.nil_append] <;>
      rfl

/-- Witness for C1: with an environment that fails stage A with status 500,
the pipeline's trace is exactly the one stage-A request. -/
theorem exchange_pipeline_ordering_witness :
    (runExchange (fun _ => ⟨500, []⟩) ("t".toList) ("p".toList) ("l".toList) ("r".toList)
        ("s".toList)).2
      = [mkStageARequest ("t".toList) ("p".toList) ("l".toList) ("r".toList)] :=
  ((exchange_pipeline_ordering (fun _ => ⟨500, []⟩) ("t".toList) ("p".toList) ("l".toList)
      ("r".toList) ("s".toList)).1
    ("STS API error (status 500): ".toList) (by rfl)).1

/-- Witness for C2: a concrete claim set, instant, key id and signature
round-trip through the compact serialization. -/
theorem assertion_roundtrip_witness :
    decodeJWT (buildJWT ⟨"i".toList, "s".toList, "a".toList, [], []⟩ 5 ("k1".toList)
        [1, 2, 3])
      = some (Json.obj ((headerFields ("k1".toList)).map (fun p => (p.1, jval p.2))),
          Json.obj ((claimsFields ⟨"i".toList, "s".toList, "a".toList, [], []⟩ 5).map
            (fun p => (p.1, jval p.2))), [1, 2, 3]) :=
  (assertion_roundtrip ⟨"i".toList, "s".toList, "a".toList, [], []⟩ 5 ("k1".toList) [1, 2, 3]
    (by decide)).1

/-- Witness for C4: a concrete 200 response with an `accessToken` and an
`expireTime` is normalized to `Bearer`/3600. -/
theorem stageB_normalization_witness :
    (exchangeForAccessToken
        (fun _ => ⟨200, ("\x7b\"accessToken\":\"abc\",\"expireTime\":\"t\"\x7d").toList⟩)
        ("f".toList) ("sa".toList)).1
      = Except.ok ⟨"abc".toList, "Bearer".toList, 3600⟩ :=
  stageB_normalization
    (fun _ => ⟨200, ("\x7b\"accessToken\":\"abc\",\"expireTime\":\"t\"\x7d").toList⟩)
    ("f".toList) ("sa".toList) ("abc".toList) ("t".toList) rfl (by rfl)

/-- Witness for C5: an attempt sequence that first succeeds on the third try
stops there with two 10-second sleeps, and an always-failing sequence is
fatal after 30 attempts and 29 sleeps. -/
theorem setup_retry_policy_witness :
    runSetupRetry (fun k => k == 3) = (LoopExit.success 3, List.replicate 2 10)
    ∧ runSetupRetry (fun _ => false) = (LoopExit.fatal 30, List.replicate 29 10) :=
  ⟨(setup_retry_policy (fun k => k == 3)).1 3 (by decide) (by decide)
      (fun j hj1 hj2 => by
        have hj : j = 1 ∨ j = 2 := by omega
        rcases hj with rfl | rfl <;> rfl)
      (by decide),
    (setup_retry_policy (fun _ => false)).2 (fun j hj1 hj2 => rfl)⟩

/-- Witness for C6: a concrete 403 response surfaces the status and body in
the error, with exactly one request issued. -/
theorem stageA_error_no_retry_witness :
    (exchangeForFederatedToken (fun _ => ⟨403, "denied".toList⟩) ("t".toList) ("p".toList)
        ("l".toList) ("r".toList)).1
      = Except.error ("STS API error (status ".toList ++ natStr 403 ++ "): ".toList
          ++ "denied".toList)
    ∧ (exchangeForFederatedToken (fun _ => ⟨403, "denied".toList⟩) ("t".toList) ("p".toList)
        ("l".toList) ("r".toList)).2
      = [mkStageARequest ("t".toList) ("p".toList) ("l".toList) ("r".toList)]
    ∧ (exchangeForFederatedToken (fun _ => ⟨403, "denied".toList⟩) ("t".toList) ("p".toList)
        ("l".toList) ("r".toList)).2.length = 1 :=
  stageA_error_no_retry (fun _ => ⟨403, "denied".toList⟩) ("t".toList) ("p".toList)
    ("l".toList) ("r".toList) (by decide)

/-- Witness for C8: a concrete 200 response whose body is the empty object
decodes to the empty topic list as an ordinary success. -/
theorem resource_call_outcomes_witness :
    (listPubSubTopics (fun _ => ⟨200, ("\x7b\x7d").toList⟩) ("pid".toList)
        ("tok".toList)).1
      = Except.ok ⟨[]⟩ :=
  (resource_call_outcomes (fun _ => ⟨200, ("\x7b\x7d").toList⟩) ("pid".toList)
    ("tok".toList)).2 rfl (by rfl)

/-- Witness for C10: with a non-empty email the claim appears verbatim, and
with an empty email it is absent. -/
theorem optional_claims_presence_witness :
    fieldVal (claimsFields ⟨"i".toList, "s".toList, "a".toList, "u@x".toList, "prod".toList⟩
        0) ("email".toList) = some (JVal.s ("u@x".toList))
    ∧ fieldVal (claimsFields ⟨"i".toList, "s".toList, "a".toList, [], "prod".toList⟩ 0)
        ("email".toList) = none :=
  ⟨(optional_claims_presence ("i".toList) ("s".toList) ("a".toList) ("u@x".toList)
      ("prod".toList) 0).2.1 (by decide),
    (optional_claims_presence ("i".toList) ("s".toList) ("a".toList) ("u@x".toList)
      ("prod".toList) 0).1⟩

end Wif
